import Mathlib

/-!
A shallow embedding of the Zinc-LHA hash pipeline (src/src/main.rs) and
proofs about it.  Bytes are modelled as `Nat` values kept below 256 by the
wrapping operations themselves (`% 256` wherever Rust wraps); byte buffers
are `List Nat`; reads use `List.getD _ _ 0` and writes use `List.set`, both
total.  A second, `Option`-valued copy of the pipeline models Rust's
panicking bounds checks and is proved to agree with the total one.
-/

set_option maxRecDepth 2048

namespace ZincLHA

/-- Rust `u8::rotate_left` (helper `rotl`, main.rs:13): rotate an 8-bit value
left; Rust reduces the shift count modulo the bit width, hence `% 8`. -/
def rotl (v b : Nat) : Nat := ((v <<< (b % 8)) % 256) ||| (v >>> (8 - b % 8))

/-- `slice::swap i j` on a byte list (used by `init_sbox`, main.rs:62/71). -/
def listSwap (l : List Nat) (i j : Nat) : List Nat :=
  let a := l.getD i 0
  let b := l.getD j 0
  (l.set i b).set j a

/-- The descending index list `(1..256).rev()` of both `init_sbox` passes. -/
def revIdx : List Nat := (List.range' 1 255).reverse

/-- One iteration of the first mixing pass of `init_sbox` (main.rs:54-63).
The state is the pair (sbox, seed); `seed` is a `u8`, so its wrapping add is
`% 256` (the XORs of sub-256 values stay below 256 on their own). -/
def sboxPass1Step (bytes : List Nat) (p : List Nat × Nat) (i : Nat) :
    List Nat × Nat :=
  let sbox := p.1
  let seed := p.2
  let L := bytes.length
  let seed1 := ((seed + bytes.getD (i % L) 0) % 256) ^^^ sbox.getD i 0 ^^^
    sbox.getD ((i + 7) % 256) 0 ^^^ rotl seed (i % 5)
  let j := (seed1 ^^^ i) % 256
  let t1 := sbox.set i (sbox.getD i 0 ^^^ bytes.getD (i % L) 0)
  let t2 := t1.set j (t1.getD j 0 ^^^ bytes.getD ((i + 1) % L) 0)
  (listSwap t2 i j, seed1)

/-- One iteration of the second mixing pass of `init_sbox` (main.rs:66-72).
`i * 11` is a `usize` product of values at most 255, far from wrapping. -/
def sboxPass2Step (bytes : List Nat) (p : List Nat × Nat) (i : Nat) :
    List Nat × Nat :=
  let sbox := p.1
  let seed := p.2
  let L := bytes.length
  let seed1 := seed ^^^ sbox.getD ((i * 3) % 256) 0
  let j := (seed1 ^^^ i) % 256
  let t1 := sbox.set i (sbox.getD i 0 ^^^ bytes.getD ((i + 16) % L) 0)
  let t2 := t1.set j (t1.getD j 0 ^^^ bytes.getD ((i + (i * 11 ^^^ i)) % L) 0)
  (listSwap t2 i j, seed1)

/-- `init_sbox` (main.rs:42-75): identity table, then the two descending
mixing passes threaded through the (sbox, seed) pair. -/
def initSbox (bytes : List Nat) : List Nat :=
  let L := bytes.length
  let seed0 := (bytes.getD 0 0 + bytes.getD (L - 1) 0) % 256
  let p1 := revIdx.foldl (sboxPass1Step bytes) (List.range 256, seed0)
  (revIdx.foldl (sboxPass2Step bytes) p1).1

/-- The multiply-accumulate of round pass 1, line main.rs:101:
`state[i] = state[i].wrapping_mul(0x9E).wrapping_add(state[(i + 1) % 8])`. -/
def pass1MulAdd (s : List Nat) (i : Nat) : Nat :=
  (s.getD i 0 * 0x9E + s.getD ((i + 1) % 8) 0) % 256

/-- Step 1 of round pass 1 at index `i` (main.rs:100):
`state[i] ^= rotl(state[j], 7)` with the mirror index `j = 63 - i`
(`state.len()` is 64 by the array type). -/
def pass1AfterStep1 (s : List Nat) (i : Nat) : List Nat :=
  s.set i (s.getD i 0 ^^^ rotl (s.getD (63 - i) 0) 7)

/-- Steps 1-3 of a round pass-1 iteration (main.rs:100-102). -/
def roundPass1A (block : List Nat) (len : Nat) (s : List Nat) (i : Nat) :
    List Nat :=
  let s1 := pass1AfterStep1 s i
  let s2 := s1.set i (pass1MulAdd s1 i)
  s2.set i (s2.getD i 0 ^^^ rotl (block.getD ((i + 4) % len) 0) 3)

/-- Steps 4-5 of a round pass-1 iteration (main.rs:104-105).  The `usize`
product `len * state[..]` wraps at `2 ^ 64` (it never reaches it, but the
wrap is kept for faithfulness). -/
def roundPass1B (block sbox : List Nat) (len : Nat) (s : List Nat)
    (i : Nat) : List Nat :=
  let idx := ((i % len) ^^^ ((len * s.getD (i % len) 0) % 2 ^ 64)) % 64
  s.set i (rotl (s.getD i 0) ((block.getD idx 0 + sbox.getD idx 0) % 256 % 8))

/-- Steps 6-7 of a round pass-1 iteration (main.rs:106-107). -/
def roundPass1C (sbox : List Nat) (s : List Nat) (i : Nat) : List Nat :=
  let s5 := s.set i (s.getD i 0 ^^^ rotl (s.getD ((i + 7) % 64) 0) 3)
  s5.set i (sbox.getD (s5.getD i 0) 0)

/-- One iteration of round pass 1 (main.rs:98-108); `state.len()` is 64 by
the array type, so the mirror index is `63 - i` and `(i+7) % 64`. -/
def roundPass1Step (block sbox : List Nat) (len : Nat) (s : List Nat)
    (i : Nat) : List Nat :=
  roundPass1C sbox (roundPass1B block sbox len (roundPass1A block len s i) i) i

/-- One iteration of round pass 2, the cross-byte mix (main.rs:111-113). -/
def roundPass2Step (s : List Nat) (i : Nat) : List Nat :=
  s.set i (s.getD i 0 ^^^ s.getD ((i + 3) % 64) 0)

/-- The initial salt of round pass 3 (main.rs:116-118): wrapping `u8`
multiply and add, then `rotate_left(3)`. -/
def saltInit (bytes sbox : List Nat) : Nat :=
  let L := bytes.length
  rotl ((bytes.getD 0 0 + bytes.getD (L - 1) 0 * sbox.getD ((L - 1) % 256) 0
    % 256) % 256) 3

/-- One iteration of round pass 3 (main.rs:120-123), threading (state, salt).
`i.wrapping_add(bytes.len() - 1)` cannot wrap for any materialisable input
(`i ≤ 63`), so it is the plain sum. -/
def roundPass3Step (bytes : List Nat) (p : List Nat × Nat) (i : Nat) :
    List Nat × Nat :=
  let s := p.1
  let salt := p.2
  let L := bytes.length
  let salt1 := salt ^^^ (salt * bytes.getD ((i + (L - 1)) % L) 0 % 256)
  (s.set i (s.getD i 0 ^^^ rotl salt1 (i % 8)), salt1)

/-- Steps 1-2 of a round pass-4 iteration (main.rs:127-131). -/
def roundPass4A (s : List Nat) (i : Nat) : List Nat :=
  let s1 := s.set i (s.getD i 0 ^^^ s.getD ((i + 3) % 64) 0)
  s1.set i (rotl ((s1.getD i 0 + s1.getD ((i + 5) % 64) 0) % 256 *
    s1.getD ((i + 3) % 64) 0 % 256) 5)

/-- Steps 3-5 of a round pass-4 iteration (main.rs:133-135). -/
def roundPass4B (block : List Nat) (len : Nat) (s : List Nat) (i : Nat) :
    List Nat :=
  let idx := ((i % len) ^^^ ((len * s.getD ((i + 3) % len) 0) % 2 ^ 64)) % 64
  let s3 := s.set i (rotl (s.getD i 0) (block.getD idx 0 % 8 + 1))
  s3.set i (s3.getD i 0 ^^^ rotl (s3.getD ((i + 4) % 64) 0) 4)

/-- One iteration of round pass 4 (main.rs:126-136). -/
def roundPass4Step (block : List Nat) (len : Nat) (s : List Nat) (i : Nat) :
    List Nat :=
  roundPass4B block len (roundPass4A s i) i

/-- The ascending index list `0..64` of the four round passes. -/
def idxs64 : List Nat := List.range 64

/-- `round` (main.rs:94-137): the four passes in order, `len = min L 64`. -/
def round (bytes block sbox : List Nat) (s : List Nat) : List Nat :=
  let len := min bytes.length 64
  let s1 := idxs64.foldl (roundPass1Step block sbox len) s
  let s2 := idxs64.foldl roundPass2Step s1
  let s3 := (idxs64.foldl (roundPass3Step bytes) (s2, saltInit bytes sbox)).1
  idxs64.foldl (roundPass4Step block len) s3

/-- One iteration of `end_mix` (main.rs:151-155). -/
def endMixStep (block sbox : List Nat) (s : List Nat) (i : Nat) : List Nat :=
  let s1 := s.set i (s.getD i 0 ^^^ block.getD i 0)
  let s2 := s1.set i (rotl (s1.getD i 0) (sbox.getD (s1.getD i 0) 0))
  s2.set i ((s2.getD i 0 + block.getD i 0) % 256 * 3 % 256 ^^^ block.getD i 0)

/-- `end_mix` (main.rs:150-156): one ascending pass pairing state and block. -/
def endMix (block sbox : List Nat) (s : List Nat) : List Nat :=
  idxs64.foldl (endMixStep block sbox) s

/-- Empty-input normalisation (main.rs:167-170): an empty byte vector gets a
single 0x00 pushed. -/
def normalize (bytes : List Nat) : List Nat := if bytes = [] then [0] else bytes

/-- The initial 64-byte state (main.rs:172-175): zero-filled, byte 0 XORed
with `len as u8`, byte 1 with `(len >> 8) as u8`. -/
def initState (L : Nat) : List Nat :=
  ((List.replicate 64 0).set 0 (0 ^^^ L % 256)).set 1 (0 ^^^ (L >>> 8) % 256)

/-- The 64-byte block (main.rs:177-180): filled with `state[0]`, then the
first `min L 64` input bytes copied over the prefix. -/
def mkBlock (bytes : List Nat) : List Nat :=
  let st := initState bytes.length
  let len := min bytes.length 64
  bytes.take len ++ List.replicate (64 - len) (st.getD 0 0)

/-- The round count (main.rs:186-187): `wrapping_add` of first and last byte
(`% 256`), then `% 255`, then `% 1000`, plus 10000. -/
def numRounds (bytes : List Nat) : Nat :=
  10000 + (bytes.getD 0 0 + bytes.getD (bytes.length - 1) 0) % 256 % 255 % 1000

/-- The pipeline on an already-normalised byte vector (main.rs:172-198):
build state, block and sbox, iterate `round`, finish with `end_mix`. -/
def pipelineRun (bytes : List Nat) : List Nat :=
  let st := initState bytes.length
  let block := mkBlock bytes
  let sbox := initSbox bytes
  endMix block sbox ((round bytes block sbox)^[numRounds bytes] st)

/-- The full pipeline (main.rs:160-199 minus I/O): normalise, then run.  The
digest is the final 64-byte state (its hex rendering is bijective). -/
def digest (input : List Nat) : List Nat :=
  pipelineRun (normalize input)

/-! ### Checked (Option-valued) copy of the pipeline

Rust indexing panics out of bounds; `none` models the panic.  Each checked
function performs exactly the reads and writes of its source lines, in
source order, and is proved to return `some` of the total function. -/

/-- Checked read (`l[i]`): the element when `i` is in bounds, else `none`. -/
def getB? (l : List Nat) (i : Nat) : Option Nat :=
  if i < l.length then some (l.getD i 0) else none

/-- Checked write (`l[i] = v`). -/
def setB? (l : List Nat) (i v : Nat) : Option (List Nat) :=
  if i < l.length then some (l.set i v) else none

/-- Checked `slice::swap`. -/
def swapB? (l : List Nat) (i j : Nat) : Option (List Nat) :=
  Option.bind (getB? l i) fun a =>
  Option.bind (getB? l j) fun b =>
  Option.bind (setB? l i b) fun t =>
  setB? t j a

/-- Checked `sboxPass1Step` (main.rs:54-63). -/
def sboxPass1StepChk (bytes : List Nat) (p : List Nat × Nat) (i : Nat) :
    Option (List Nat × Nat) :=
  let sbox := p.1
  let seed := p.2
  let L := bytes.length
  Option.bind (getB? bytes (i % L)) fun b1 =>
  Option.bind (getB? sbox i) fun e1 =>
  Option.bind (getB? sbox ((i + 7) % 256)) fun e2 =>
  let seed1 := ((seed + b1) % 256) ^^^ e1 ^^^ e2 ^^^ rotl seed (i % 5)
  let j := (seed1 ^^^ i) % 256
  Option.bind (getB? sbox i) fun c1 =>
  Option.bind (setB? sbox i (c1 ^^^ b1)) fun t1 =>
  Option.bind (getB? bytes ((i + 1) % L)) fun b2 =>
  Option.bind (getB? t1 j) fun c2 =>
  Option.bind (setB? t1 j (c2 ^^^ b2)) fun t2 =>
  Option.bind (swapB? t2 i j) fun t3 =>
  some (t3, seed1)

/-- Checked `sboxPass2Step` (main.rs:66-72). -/
def sboxPass2StepChk (bytes : List Nat) (p : List Nat × Nat) (i : Nat) :
    Option (List Nat × Nat) :=
  let sbox := p.1
  let seed := p.2
  let L := bytes.length
  Option.bind (getB? sbox ((i * 3) % 256)) fun e1 =>
  let seed1 := seed ^^^ e1
  let j := (seed1 ^^^ i) % 256
  Option.bind (getB? sbox i) fun c1 =>
  Option.bind (getB? bytes ((i + 16) % L)) fun b1 =>
  Option.bind (setB? sbox i (c1 ^^^ b1)) fun t1 =>
  Option.bind (getB? t1 j) fun c2 =>
  Option.bind (getB? bytes ((i + (i * 11 ^^^ i)) % L)) fun b2 =>
  Option.bind (setB? t1 j (c2 ^^^ b2)) fun t2 =>
  Option.bind (swapB? t2 i j) fun t3 =>
  some (t3, seed1)

/-- Checked `init_sbox` (main.rs:42-75). -/
def initSboxChk (bytes : List Nat) : Option (List Nat) :=
  let L := bytes.length
  Option.bind (getB? bytes 0) fun f0 =>
  Option.bind (getB? bytes (L - 1)) fun l0 =>
  let seed0 := (f0 + l0) % 256
  Option.bind (revIdx.foldlM (sboxPass1StepChk bytes) (List.range 256, seed0))
    fun p1 =>
  Option.bind (revIdx.foldlM (sboxPass2StepChk bytes) p1) fun p2 =>
  some p2.1

/-- Checked round pass-1 steps 1-3 (main.rs:100-102). -/
def roundP1aChk (block : List Nat) (len : Nat) (s : List Nat) (i : Nat) :
    Option (List Nat) :=
  Option.bind (getB? s i) fun a0 =>
  Option.bind (getB? s (63 - i)) fun a1 =>
  Option.bind (setB? s i (a0 ^^^ rotl a1 7)) fun s1 =>
  Option.bind (getB? s1 i) fun a2 =>
  Option.bind (getB? s1 ((i + 1) % 8)) fun a3 =>
  Option.bind (setB? s1 i ((a2 * 0x9E + a3) % 256)) fun s2 =>
  Option.bind (getB? s2 i) fun a4 =>
  Option.bind (getB? block ((i + 4) % len)) fun b0 =>
  setB? s2 i (a4 ^^^ rotl b0 3)

/-- Checked round pass-1 steps 4-5 (main.rs:104-105). -/
def roundP1bChk (block sbox : List Nat) (len : Nat) (s : List Nat)
    (i : Nat) : Option (List Nat) :=
  Option.bind (getB? s (i % len)) fun a5 =>
  let idx := ((i % len) ^^^ ((len * a5) % 2 ^ 64)) % 64
  Option.bind (getB? s i) fun a6 =>
  Option.bind (getB? block idx) fun b1 =>
  Option.bind (getB? sbox idx) fun e0 =>
  setB? s i (rotl a6 ((b1 + e0) % 256 % 8))

/-- Checked round pass-1 steps 6-7 (main.rs:106-107). -/
def roundP1cChk (sbox : List Nat) (s : List Nat) (i : Nat) :
    Option (List Nat) :=
  Option.bind (getB? s i) fun a7 =>
  Option.bind (getB? s ((i + 7) % 64)) fun a8 =>
  Option.bind (setB? s i (a7 ^^^ rotl a8 3)) fun s5 =>
  Option.bind (getB? s5 i) fun a9 =>
  Option.bind (getB? sbox a9) fun e1 =>
  setB? s5 i e1

/-- Checked round pass-1 iteration (main.rs:98-108). -/
def roundPass1StepChk (block sbox : List Nat) (len : Nat) (s : List Nat)
    (i : Nat) : Option (List Nat) :=
  Option.bind (roundP1aChk block len s i) fun t1 =>
  Option.bind (roundP1bChk block sbox len t1 i) fun t2 =>
  roundP1cChk sbox t2 i

/-- Checked round pass-2 iteration (main.rs:111-113). -/
def roundPass2StepChk (s : List Nat) (i : Nat) : Option (List Nat) :=
  Option.bind (getB? s i) fun a0 =>
  Option.bind (getB? s ((i + 3) % 64)) fun a1 =>
  setB? s i (a0 ^^^ a1)

/-- Checked salt initialisation (main.rs:116-118). -/
def saltInitChk (bytes sbox : List Nat) : Option Nat :=
  let L := bytes.length
  Option.bind (getB? bytes 0) fun f0 =>
  Option.bind (getB? bytes (L - 1)) fun l0 =>
  Option.bind (getB? sbox ((L - 1) % 256)) fun e0 =>
  some (rotl ((f0 + l0 * e0 % 256) % 256) 3)

/-- Checked round pass-3 iteration (main.rs:120-123). -/
def roundPass3StepChk (bytes : List Nat) (p : List Nat × Nat) (i : Nat) :
    Option (List Nat × Nat) :=
  let s := p.1
  let salt := p.2
  let L := bytes.length
  Option.bind (getB? bytes ((i + (L - 1)) % L)) fun b0 =>
  let salt1 := salt ^^^ (salt * b0 % 256)
  Option.bind (getB? s i) fun a0 =>
  Option.bind (setB? s i (a0 ^^^ rotl salt1 (i % 8))) fun s1 =>
  some (s1, salt1)

/-- Checked round pass-4 steps 1-2 (main.rs:127-131). -/
def roundP4aChk (s : List Nat) (i : Nat) : Option (List Nat) :=
  Option.bind (getB? s i) fun a0 =>
  Option.bind (getB? s ((i + 3) % 64)) fun a1 =>
  Option.bind (setB? s i (a0 ^^^ a1)) fun s1 =>
  Option.bind (getB? s1 i) fun a2 =>
  Option.bind (getB? s1 ((i + 5) % 64)) fun a3 =>
  Option.bind (getB? s1 ((i + 3) % 64)) fun a4 =>
  setB? s1 i (rotl ((a2 + a3) % 256 * a4 % 256) 5)

/-- Checked round pass-4 steps 3-5 (main.rs:133-135). -/
def roundP4bChk (block : List Nat) (len : Nat) (s : List Nat) (i : Nat) :
    Option (List Nat) :=
  Option.bind (getB? s ((i + 3) % len)) fun a5 =>
  let idx := ((i % len) ^^^ ((len * a5) % 2 ^ 64)) % 64
  Option.bind (getB? s i) fun a6 =>
  Option.bind (getB? block idx) fun b0 =>
  Option.bind (setB? s i (rotl a6 (b0 % 8 + 1))) fun s3 =>
  Option.bind (getB? s3 i) fun a7 =>
  Option.bind (getB? s3 ((i + 4) % 64)) fun a8 =>
  setB? s3 i (a7 ^^^ rotl a8 4)

/-- Checked round pass-4 iteration (main.rs:126-136). -/
def roundPass4StepChk (block : List Nat) (len : Nat) (s : List Nat)
    (i : Nat) : Option (List Nat) :=
  Option.bind (roundP4aChk s i) fun t1 =>
  roundP4bChk block len t1 i

/-- Checked `round` (main.rs:94-137). -/
def roundChk (bytes block sbox : List Nat) (s : List Nat) :
    Option (List Nat) :=
  let len := min bytes.length 64
  Option.bind (idxs64.foldlM (roundPass1StepChk block sbox len) s) fun s1 =>
  Option.bind (idxs64.foldlM roundPass2StepChk s1) fun s2 =>
  Option.bind (saltInitChk bytes sbox) fun salt0 =>
  Option.bind (idxs64.foldlM (roundPass3StepChk bytes) (s2, salt0)) fun p3 =>
  idxs64.foldlM (roundPass4StepChk block len) p3.1

/-- Checked `end_mix` iteration (main.rs:151-155). -/
def endMixStepChk (block sbox : List Nat) (s : List Nat) (i : Nat) :
    Option (List Nat) :=
  Option.bind (getB? s i) fun a0 =>
  Option.bind (getB? block i) fun b0 =>
  Option.bind (setB? s i (a0 ^^^ b0)) fun s1 =>
  Option.bind (getB? s1 i) fun a1 =>
  Option.bind (getB? sbox a1) fun e0 =>
  Option.bind (setB? s1 i (rotl a1 e0)) fun s2 =>
  Option.bind (getB? s2 i) fun a2 =>
  setB? s2 i ((a2 + b0) % 256 * 3 % 256 ^^^ b0)

/-- Checked `end_mix` (main.rs:150-156). -/
def endMixChk (block sbox : List Nat) (s : List Nat) : Option (List Nat) :=
  idxs64.foldlM (endMixStepChk block sbox) s

/-- Checked initial state (main.rs:172-175). -/
def initStateChk (L : Nat) : Option (List Nat) :=
  let st := List.replicate 64 0
  Option.bind (getB? st 0) fun a =>
  Option.bind (setB? st 0 (a ^^^ L % 256)) fun st1 =>
  Option.bind (getB? st1 1) fun b =>
  setB? st1 1 (b ^^^ (L >>> 8) % 256)

/-- Checked block construction (main.rs:177-180): the two slicings
`block[..len]` and `bytes[..len]` are valid when `len` is at most both
lengths. -/
def mkBlockChk (bytes : List Nat) : Option (List Nat) :=
  Option.bind (initStateChk bytes.length) fun st =>
  Option.bind (getB? st 0) fun fill =>
  let len := min bytes.length 64
  if len ≤ bytes.length ∧ len ≤ 64 then
    some (bytes.take len ++ List.replicate (64 - len) fill)
  else none

/-- Checked round count (main.rs:186-187). -/
def numRoundsChk (bytes : List Nat) : Option Nat :=
  Option.bind (getB? bytes 0) fun f0 =>
  Option.bind (getB? bytes (bytes.length - 1)) fun l0 =>
  some (10000 + (f0 + l0) % 256 % 255 % 1000)

/-- Checked n-fold iteration of a checked body. -/
def iterChk (f : List Nat → Option (List Nat)) :
    Nat → List Nat → Option (List Nat)
  | 0, s => some s
  | n + 1, s => Option.bind (f s) (iterChk f n)

/-- The checked pipeline (main.rs:160-199 minus I/O). -/
def digestChk (input : List Nat) : Option (List Nat) :=
  let bytes := normalize input
  Option.bind (initStateChk bytes.length) fun st =>
  Option.bind (mkBlockChk bytes) fun block =>
  Option.bind (initSboxChk bytes) fun sbox =>
  Option.bind (numRoundsChk bytes) fun nr =>
  Option.bind (iterChk (roundChk bytes block sbox) nr st) fun stN =>
  endMixChk block sbox stN

/-! ### Definitions transcribed from the specification's words

These are compared against the source-derived definitions above; they are
never used by the pipeline itself. -/

/-- Claim C1's reading of main.rs:101: the added operand is taken at index
`i % 8` (the source uses `(i + 1) % 8`). -/
def pass1MulAddClaimC1 (s : List Nat) (i : Nat) : Nat :=
  (s.getD i 0 * 0x9E + s.getD (i % 8) 0) % 256

/-- Evaluation-friendly mirror of the S-box: the table as a function
`Nat → Nat` instead of a list, with `upd` playing `List.set`.  Proved
pointwise equal to `initSbox`; used only to compute concrete table
entries (function closures evaluate without deep list traversals). -/
def upd (f : Nat → Nat) (i v : Nat) : Nat → Nat :=
  fun x => if x = i then v else f x

/-- `slice::swap` on the function mirror. -/
def fswap (f : Nat → Nat) (i j : Nat) : Nat → Nat :=
  upd (upd f i (f j)) j (f i)

/-- `sboxPass1Step` on the function mirror. -/
def sboxPass1StepF (bytes : List Nat) (p : (Nat → Nat) × Nat) (i : Nat) :
    (Nat → Nat) × Nat :=
  let f := p.1
  let seed := p.2
  let L := bytes.length
  let seed1 := ((seed + bytes.getD (i % L) 0) % 256) ^^^ f i ^^^
    f ((i + 7) % 256) ^^^ rotl seed (i % 5)
  let j := (seed1 ^^^ i) % 256
  let t1 := upd f i (f i ^^^ bytes.getD (i % L) 0)
  let t2 := upd t1 j (t1 j ^^^ bytes.getD ((i + 1) % L) 0)
  (fswap t2 i j, seed1)

/-- `sboxPass2Step` on the function mirror. -/
def sboxPass2StepF (bytes : List Nat) (p : (Nat → Nat) × Nat) (i : Nat) :
    (Nat → Nat) × Nat :=
  let f := p.1
  let seed := p.2
  let L := bytes.length
  let seed1 := seed ^^^ f ((i * 3) % 256)
  let j := (seed1 ^^^ i) % 256
  let t1 := upd f i (f i ^^^ bytes.getD ((i + 16) % L) 0)
  let t2 := upd t1 j (t1 j ^^^ bytes.getD ((i + (i * 11 ^^^ i)) % L) 0)
  (fswap t2 i j, seed1)

/-- `initSbox` on the function mirror (`id` is the identity table). -/
def initSboxF (bytes : List Nat) : Nat → Nat :=
  let L := bytes.length
  let seed0 := (bytes.getD 0 0 + bytes.getD (L - 1) 0) % 256
  let p1 := revIdx.foldl (sboxPass1StepF bytes) (id, seed0)
  (revIdx.foldl (sboxPass2StepF bytes) p1).1

/-- The simulation relation between the list S-box state and its function
mirror: same seed, and the same table read at every index below 256. -/
def SboxRel (p : List Nat × Nat) (q : (Nat → Nat) × Nat) : Prop :=
  p.1.length = 256 ∧ p.2 = q.2 ∧ ∀ k, k < 256 → p.1.getD k 0 = q.1 k

/-- One Finalizer iteration as the spec words it: the rotate amount is the
table lookup value explicitly reduced modulo 8. -/
def endMixStepSpec (block sbox : List Nat) (s : List Nat) (i : Nat) :
    List Nat :=
  let s1 := s.set i (s.getD i 0 ^^^ block.getD i 0)
  let s2 := s1.set i (rotl (s1.getD i 0) (sbox.getD (s1.getD i 0) 0 % 8))
  s2.set i ((s2.getD i 0 + block.getD i 0) % 256 * 3 % 256 ^^^ block.getD i 0)

/-- The Finalizer as the spec words it. -/
def endMixSpec (block sbox : List Nat) (s : List Nat) : List Nat :=
  idxs64.foldl (endMixStepSpec block sbox) s

/-- The running salt of round pass 3, written as an explicit sequence from
the spec's words: `saltSeq k` is the salt after `k` updates (`saltSeq 0` is
the initial salt, and iteration `i` of the pass injects `saltSeq (i+1)`). -/
def saltSeq (bytes sbox : List Nat) : Nat → Nat
  | 0 => rotl ((bytes.getD 0 0 + bytes.getD (bytes.length - 1) 0 *
      sbox.getD ((bytes.length - 1) % 256) 0 % 256) % 256) 3
  | k + 1 =>
    let p := saltSeq bytes sbox k
    p ^^^ (p * bytes.getD ((k + (bytes.length - 1)) % bytes.length) 0 % 256)

/-- What claim C5 says one pass-1 iteration of SeedExpander does, stated
pointwise on the resulting (table, seed) pair: the seed update formula; and
with `j = (new seed XOR i) mod 256`, the entries at `i` and `j` show both
XORs applied strictly before the swap (`table[i]` receives old `table[j]
XOR input[(i+1) mod len]`, `table[j]` receives old `table[i] XOR
input[i mod len]`, collapsing to a double XOR when `i = j`), every other
entry unchanged. -/
def Pass1IterationShape (bytes sbox : List Nat) (seed i : Nat) : Prop :=
  (sboxPass1Step bytes (sbox, seed) i).2 =
    ((seed + bytes.getD (i % bytes.length) 0) % 256) ^^^ sbox.getD i 0 ^^^
      sbox.getD ((i + 7) % 256) 0 ^^^ rotl seed (i % 5) ∧
  (sboxPass1Step bytes (sbox, seed) i).1.length = 256 ∧
  ∀ j, j = ((sboxPass1Step bytes (sbox, seed) i).2 ^^^ i) % 256 →
    (i ≠ j →
      (sboxPass1Step bytes (sbox, seed) i).1.getD i 0 =
        sbox.getD j 0 ^^^ bytes.getD ((i + 1) % bytes.length) 0 ∧
      (sboxPass1Step bytes (sbox, seed) i).1.getD j 0 =
        sbox.getD i 0 ^^^ bytes.getD (i % bytes.length) 0) ∧
    (i = j →
      (sboxPass1Step bytes (sbox, seed) i).1.getD i 0 =
        sbox.getD i 0 ^^^ bytes.getD (i % bytes.length) 0 ^^^
          bytes.getD ((i + 1) % bytes.length) 0) ∧
    ∀ k, k ≠ i → k ≠ j →
      (sboxPass1Step bytes (sbox, seed) i).1.getD k 0 = sbox.getD k 0

/-- What claim C6 says round pass 3 does: the salt starts from the claimed
initial formula (`saltSeq _ _ 0`), is updated before each injection and
carried across iterations (iteration `i` injects `saltSeq _ _ (i+1)`), and
each accumulator byte is XORed with the rotated running salt. -/
def Pass3Shape (bytes sbox s : List Nat) : Prop :=
  saltInit bytes sbox = saltSeq bytes sbox 0 ∧
  (idxs64.foldl (roundPass3Step bytes) (s, saltInit bytes sbox)).2 =
    saltSeq bytes sbox 64 ∧
  ∀ i, i < 64 →
    ((idxs64.foldl (roundPass3Step bytes) (s, saltInit bytes sbox)).1).getD
        i 0 =
      s.getD i 0 ^^^ rotl (saltSeq bytes sbox (i + 1)) (i % 8)

/-! ### Arithmetic and list helper lemmas -/

theorem xor_lt256 {x y : Nat} (hx : x < 256) (hy : y < 256) : x ^^^ y < 256 :=
  Nat.xor_lt_two_pow (n := 8) hx hy

theorem rotl_lt256 (v b : Nat) (hv : v < 256) : rotl v b < 256 := by
  unfold rotl
  have h1 : v <<< (b % 8) % 256 < 2 ^ 8 := Nat.mod_lt _ (by norm_num)
  have h2 : v >>> (8 - b % 8) < 2 ^ 8 := by
    rw [Nat.shiftRight_eq_div_pow]
    exact Nat.lt_of_le_of_lt (Nat.div_le_self _ _) hv
  exact Nat.or_lt_two_pow h1 h2

theorem getD_lt256 (l : List Nat) (i : Nat) (h : ∀ x ∈ l, x < 256) :
    l.getD i 0 < 256 := by
  by_cases hi : i < l.length
  · rw [List.getD_eq_getElem _ _ hi]
    exact h _ (List.getElem_mem hi)
  · rw [List.getD_eq_default _ _ (Nat.le_of_not_lt hi)]
    norm_num

theorem getD_replicate_of_lt (n k a : Nat) (h : k < n) :
    (List.replicate n a).getD k 0 = a := by
  rw [List.getD_eq_getElem _ _ (by simpa using h)]
  simp

theorem getD_set_eq (l : List Nat) (i v : Nat) (h : i < l.length) :
    (l.set i v).getD i 0 = v := by
  rw [List.getD_eq_getElem _ _ (by simpa using h)]
  simp

theorem getD_set_ne (l : List Nat) (i k v : Nat) (h : k ≠ i) :
    (l.set i v).getD k 0 = l.getD k 0 := by
  rw [List.getD_eq_getElem?_getD, List.getD_eq_getElem?_getD,
    List.getElem?_set_ne (fun he => h he.symm)]

theorem listSwap_length (l : List Nat) (i j : Nat) :
    (listSwap l i j).length = l.length := by
  unfold listSwap
  simp

/-- After a swap, position `i` reads what position `j` read before. -/
theorem listSwap_getD_fst (l : List Nat) (i j : Nat) (hi : i < l.length) :
    (listSwap l i j).getD i 0 = l.getD j 0 := by
  unfold listSwap
  by_cases h : i = j
  · subst h
    rw [getD_set_eq _ _ _ (by simpa using hi)]
  · rw [getD_set_ne _ _ _ _ h, getD_set_eq _ _ _ hi]

/-- After a swap, position `j` reads what position `i` read before. -/
theorem listSwap_getD_snd (l : List Nat) (i j : Nat) (hj : j < l.length) :
    (listSwap l i j).getD j 0 = l.getD i 0 := by
  unfold listSwap
  by_cases h : i = j
  · subst h
    rw [getD_set_eq _ _ _ (by simpa using hj)]
  · rw [getD_set_eq _ _ _ (by simpa using hj)]

/-- A swap leaves every other position unchanged. -/
theorem listSwap_getD_other (l : List Nat) (i j k : Nat) (hki : k ≠ i)
    (hkj : k ≠ j) : (listSwap l i j).getD k 0 = l.getD k 0 := by
  unfold listSwap
  rw [getD_set_ne _ _ _ _ hkj, getD_set_ne _ _ _ _ hki]

theorem mem_set_lt256 {l : List Nat} {v : Nat} (hl : ∀ x ∈ l, x < 256)
    (hv : v < 256) (i : Nat) : ∀ x ∈ l.set i v, x < 256 := by
  intro x hx
  rcases List.mem_or_eq_of_mem_set hx with h | h
  · exact hl _ h
  · omega

theorem mem_listSwap_lt256 {l : List Nat} (hl : ∀ x ∈ l, x < 256)
    (i j : Nat) : ∀ x ∈ listSwap l i j, x < 256 := by
  unfold listSwap
  exact mem_set_lt256 (mem_set_lt256 hl (getD_lt256 _ _ hl) i)
    (getD_lt256 _ _ hl) j

/-- A read from a once-written byte list is a byte. -/
theorem getD_set_lt256 {l : List Nat} {v : Nat} (hv : v < 256)
    (hl : ∀ x ∈ l, x < 256) (i k : Nat) : (l.set i v).getD k 0 < 256 :=
  getD_lt256 _ k (mem_set_lt256 hl hv i)

/-- A `foldl` preserves any invariant its step preserves. -/
theorem foldl_inv {α β : Type} (P : β → Prop) (f : β → α → β) (l : List α)
    (h : ∀ b a, a ∈ l → P b → P (f b a)) :
    ∀ b, P b → P (l.foldl f b) := by
  induction l with
  | nil => exact fun b hb => hb
  | cons a t ih =>
    intro b hb
    exact ih (fun b' a' ha' => h b' a' (List.mem_cons_of_mem _ ha')) _
      (h b a (List.mem_cons_self _ _) hb)

/-- Two `foldl`s over the same index list stay related if their steps do. -/
theorem foldl_rel {α β γ : Type} (R : β → γ → Prop) (f : β → α → β)
    (g : γ → α → γ) (l : List α)
    (h : ∀ b c a, a ∈ l → R b c → R (f b a) (g c a)) :
    ∀ b c, R b c → R (l.foldl f b) (l.foldl g c) := by
  induction l with
  | nil => exact fun b c hbc => hbc
  | cons a t ih =>
    intro b c hbc
    exact ih (fun b' c' a' ha' => h b' c' a' (List.mem_cons_of_mem _ ha')) _ _
      (h b c a (List.mem_cons_self _ _) hbc)

/-- A `List.set` and an `upd` stay pointwise equal below 256. -/
theorem set_upd_rel {l : List Nat} {f : Nat → Nat}
    (htab : ∀ k, k < 256 → l.getD k 0 = f k) (hlen : l.length = 256)
    (i v : Nat) (hi : i < 256) :
    ∀ k, k < 256 → (l.set i v).getD k 0 = upd f i v k := by
  intro k hk
  unfold upd
  by_cases hki : k = i
  · subst hki
    rw [getD_set_eq _ _ _ (by omega), if_pos rfl]
  · rw [getD_set_ne _ _ _ _ hki, if_neg hki]
    exact htab k hk

/-- `rotl` already reduces its shift count modulo 8, so pre-reducing it is
invisible. -/
theorem rotl_mod8 (v b : Nat) : rotl v (b % 8) = rotl v b := by
  unfold rotl
  rw [Nat.mod_mod]

/-- The head of the initial state is the low byte of the input length. -/
theorem initState_getD_zero (L : Nat) : (initState L).getD 0 0 = L % 256 := by
  have h : initState L =
      (0 ^^^ L % 256) :: (0 ^^^ (L >>> 8) % 256) :: List.replicate 62 0 := rfl
  rw [h]
  simp

/-- Every index iterated by the `init_sbox` passes lies in [1, 255]. -/
theorem mem_revIdx_lt (i : Nat) (h : i ∈ revIdx) : 1 ≤ i ∧ i < 256 := by
  unfold revIdx at h
  rw [List.mem_reverse] at h
  have := List.mem_range'_1.1 h
  omega

/-- XORing an entry with a byte keeps all entries byte-sized. -/
theorem set_xor_byte_lt256 {l : List Nat} (hl : ∀ x ∈ l, x < 256)
    {bytes : List Nat} (hb : ∀ x ∈ bytes, x < 256) (i m : Nat) :
    ∀ x ∈ l.set i (l.getD i 0 ^^^ bytes.getD m 0), x < 256 :=
  mem_set_lt256 hl (xor_lt256 (getD_lt256 l i hl) (getD_lt256 bytes m hb)) i

/-- One pass-1 step keeps the table at 256 byte-sized entries. -/
theorem sboxPass1Step_inv (bytes : List Nat) (hb : ∀ x ∈ bytes, x < 256)
    (p : List Nat × Nat) (i : Nat)
    (hp : p.1.length = 256 ∧ ∀ x ∈ p.1, x < 256) :
    (sboxPass1Step bytes p i).1.length = 256 ∧
      ∀ x ∈ (sboxPass1Step bytes p i).1, x < 256 := by
  obtain ⟨hl, hv⟩ := hp
  simp only [sboxPass1Step]
  refine ⟨by simp [listSwap_length, hl], ?_⟩
  exact mem_listSwap_lt256
    (set_xor_byte_lt256 (set_xor_byte_lt256 hv hb _ _) hb _ _) _ _

/-- One pass-2 step keeps the table at 256 byte-sized entries. -/
theorem sboxPass2Step_inv (bytes : List Nat) (hb : ∀ x ∈ bytes, x < 256)
    (p : List Nat × Nat) (i : Nat)
    (hp : p.1.length = 256 ∧ ∀ x ∈ p.1, x < 256) :
    (sboxPass2Step bytes p i).1.length = 256 ∧
      ∀ x ∈ (sboxPass2Step bytes p i).1, x < 256 := by
  obtain ⟨hl, hv⟩ := hp
  simp only [sboxPass2Step]
  refine ⟨by simp [listSwap_length, hl], ?_⟩
  exact mem_listSwap_lt256
    (set_xor_byte_lt256 (set_xor_byte_lt256 hv hb _ _) hb _ _) _ _

/-- The generated table always has 256 entries, all bytes. -/
theorem initSbox_table_inv (bytes : List Nat) (hb : ∀ x ∈ bytes, x < 256) :
    (initSbox bytes).length = 256 ∧ ∀ x ∈ initSbox bytes, x < 256 := by
  simp only [initSbox]
  apply foldl_inv
    (fun p : List Nat × Nat => p.1.length = 256 ∧ ∀ x ∈ p.1, x < 256)
    (sboxPass2Step bytes) revIdx
    (fun p i _ hp => sboxPass2Step_inv bytes hb p i hp)
  apply foldl_inv
    (fun p : List Nat × Nat => p.1.length = 256 ∧ ∀ x ∈ p.1, x < 256)
    (sboxPass1Step bytes) revIdx
    (fun p i _ hp => sboxPass1Step_inv bytes hb p i hp)
  constructor
  · exact List.length_range 256
  · intro x hx
    have hx2 : x ∈ List.range 256 := hx
    exact List.mem_range.1 hx2

/-- A `listSwap` and an `fswap` stay pointwise equal below 256. -/
theorem listSwap_fswap_rel {l : List Nat} {f : Nat → Nat}
    (htab : ∀ k, k < 256 → l.getD k 0 = f k) (hlen : l.length = 256)
    (i j : Nat) (hi : i < 256) (hj : j < 256) :
    ∀ k, k < 256 → (listSwap l i j).getD k 0 = fswap f i j k := by
  intro k hk
  unfold fswap upd
  by_cases hkj : k = j
  · subst hkj
    rw [listSwap_getD_snd _ _ _ (by omega), if_pos rfl]
    exact htab i hi
  · by_cases hki : k = i
    · subst hki
      rw [listSwap_getD_fst _ _ _ (by omega), if_neg hkj, if_pos rfl]
      exact htab j hj
    · rw [listSwap_getD_other _ _ _ _ hki hkj, if_neg hkj, if_neg hki]
      exact htab k hk

/-- One pass-1 step preserves the list/function simulation. -/
theorem sboxPass1Step_mirror (bytes : List Nat) (p : List Nat × Nat)
    (q : (Nat → Nat) × Nat) (i : Nat) (hi : i < 256) (h : SboxRel p q) :
    SboxRel (sboxPass1Step bytes p i) (sboxPass1StepF bytes q i) := by
  obtain ⟨hlen, hseed, htab⟩ := h
  simp only [sboxPass1Step, sboxPass1StepF, SboxRel]
  rw [hseed, htab i hi, htab ((i + 7) % 256) (Nat.mod_lt _ (by norm_num))]
  have hjlt : (((q.2 + bytes.getD (i % bytes.length) 0) % 256 ^^^ q.1 i ^^^
      q.1 ((i + 7) % 256) ^^^ rotl q.2 (i % 5)) ^^^ i) % 256 < 256 :=
    Nat.mod_lt _ (by norm_num)
  have ht1 := set_upd_rel htab hlen i
    (q.1 i ^^^ bytes.getD (i % bytes.length) 0) hi
  have ht1len : (p.1.set i (q.1 i ^^^ bytes.getD (i % bytes.length) 0)).length
      = 256 := by simp [hlen]
  rw [ht1 _ hjlt]
  have ht2 := set_upd_rel ht1 ht1len _
    (upd q.1 i (q.1 i ^^^ bytes.getD (i % bytes.length) 0)
        ((((q.2 + bytes.getD (i % bytes.length) 0) % 256 ^^^ q.1 i ^^^
          q.1 ((i + 7) % 256) ^^^ rotl q.2 (i % 5)) ^^^ i) % 256) ^^^
      bytes.getD ((i + 1) % bytes.length) 0) hjlt
  have ht2len :
      ((p.1.set i (q.1 i ^^^ bytes.getD (i % bytes.length) 0)).set
        ((((q.2 + bytes.getD (i % bytes.length) 0) % 256 ^^^ q.1 i ^^^
          q.1 ((i + 7) % 256) ^^^ rotl q.2 (i % 5)) ^^^ i) % 256)
        (upd q.1 i (q.1 i ^^^ bytes.getD (i % bytes.length) 0)
          ((((q.2 + bytes.getD (i % bytes.length) 0) % 256 ^^^ q.1 i ^^^
            q.1 ((i + 7) % 256) ^^^ rotl q.2 (i % 5)) ^^^ i) % 256) ^^^
          bytes.getD ((i + 1) % bytes.length) 0)).length = 256 := by
    simp [hlen]
  exact ⟨by simp [listSwap_length, hlen], rfl,
    listSwap_fswap_rel ht2 ht2len i _ hi hjlt⟩

/-- One pass-2 step preserves the list/function simulation. -/
theorem sboxPass2Step_mirror (bytes : List Nat) (p : List Nat × Nat)
    (q : (Nat → Nat) × Nat) (i : Nat) (hi : i < 256) (h : SboxRel p q) :
    SboxRel (sboxPass2Step bytes p i) (sboxPass2StepF bytes q i) := by
  obtain ⟨hlen, hseed, htab⟩ := h
  simp only [sboxPass2Step, sboxPass2StepF, SboxRel]
  rw [hseed, htab i hi, htab (i * 3 % 256) (Nat.mod_lt _ (by norm_num))]
  have hjlt : ((q.2 ^^^ q.1 (i * 3 % 256)) ^^^ i) % 256 < 256 :=
    Nat.mod_lt _ (by norm_num)
  have ht1 := set_upd_rel htab hlen i
    (q.1 i ^^^ bytes.getD ((i + 16) % bytes.length) 0) hi
  have ht1len :
      (p.1.set i (q.1 i ^^^ bytes.getD ((i + 16) % bytes.length) 0)).length
      = 256 := by simp [hlen]
  rw [ht1 _ hjlt]
  have ht2 := set_upd_rel ht1 ht1len _
    (upd q.1 i (q.1 i ^^^ bytes.getD ((i + 16) % bytes.length) 0)
        (((q.2 ^^^ q.1 (i * 3 % 256)) ^^^ i) % 256) ^^^
      bytes.getD ((i + (i * 11 ^^^ i)) % bytes.length) 0) hjlt
  have ht2len :
      ((p.1.set i (q.1 i ^^^ bytes.getD ((i + 16) % bytes.length) 0)).set
        (((q.2 ^^^ q.1 (i * 3 % 256)) ^^^ i) % 256)
        (upd q.1 i (q.1 i ^^^ bytes.getD ((i + 16) % bytes.length) 0)
          (((q.2 ^^^ q.1 (i * 3 % 256)) ^^^ i) % 256) ^^^
          bytes.getD ((i + (i * 11 ^^^ i)) % bytes.length) 0)).length
      = 256 := by simp [hlen]
  exact ⟨by simp [listSwap_length, hlen], rfl,
    listSwap_fswap_rel ht2 ht2len i _ hi hjlt⟩

/-- The function mirror computes exactly the `init_sbox` table. -/
theorem initSbox_eq_mirror (bytes : List Nat) (k : Nat) (hk : k < 256) :
    (initSbox bytes).getD k 0 = initSboxF bytes k := by
  have base : SboxRel
      (List.range 256, (bytes.getD 0 0 + bytes.getD (bytes.length - 1) 0) % 256)
      (id, (bytes.getD 0 0 + bytes.getD (bytes.length - 1) 0) % 256) := by
    refine ⟨List.length_range 256, rfl, ?_⟩
    intro m hm
    show (List.range 256).getD m 0 = id m
    rw [List.getD_eq_getElem _ _ (by rw [List.length_range]; exact hm)]
    simp
  have h1 := foldl_rel SboxRel (sboxPass1Step bytes) (sboxPass1StepF bytes)
    revIdx
    (fun p q a ha hr => sboxPass1Step_mirror bytes p q a (mem_revIdx_lt a ha).2 hr)
    _ _ base
  have h2 := foldl_rel SboxRel (sboxPass2Step bytes) (sboxPass2StepF bytes)
    revIdx
    (fun p q a ha hr => sboxPass2Step_mirror bytes p q a (mem_revIdx_lt a ha).2 hr)
    _ _ h1
  exact h2.2.2 k hk

/-! ### Refinement of the checked pipeline onto the total one -/

theorem getB?_pos {l : List Nat} {i : Nat} (h : i < l.length) :
    getB? l i = some (l.getD i 0) := if_pos h

theorem setB?_pos {l : List Nat} {i v : Nat} (h : i < l.length) :
    setB? l i v = some (l.set i v) := if_pos h

theorem mod256_lt (x : Nat) : x % 256 < 256 := Nat.mod_lt _ (by norm_num)

theorem swapB?_pos {l : List Nat} {i j : Nat} (hi : i < l.length)
    (hj : j < l.length) : swapB? l i j = some (listSwap l i j) := by
  unfold swapB? listSwap
  rw [getB?_pos hi, Option.some_bind, getB?_pos hj, Option.some_bind,
    setB?_pos hi, Option.some_bind]
  exact setB?_pos (by simpa using hj)

theorem mem_idxs64_lt {a : Nat} (h : a ∈ idxs64) : a < 64 :=
  List.mem_range.1 h

/-- A checked `foldlM` computes the total `foldl` when every step does and
preserves the invariant. -/
theorem foldlM_eq_foldl {β : Type} (P : β → Prop) (f : β → Nat → β)
    (g : β → Nat → Option β) (l : List Nat)
    (h : ∀ b a, a ∈ l → P b → g b a = some (f b a) ∧ P (f b a)) :
    ∀ b, P b → l.foldlM g b = some (l.foldl f b) ∧ P (l.foldl f b) := by
  induction l with
  | nil => intro b hb; exact ⟨rfl, hb⟩
  | cons a t ih =>
    intro b hb
    obtain ⟨he, hp⟩ := h b a (List.mem_cons_self _ _) hb
    rw [List.foldlM_cons, List.foldl_cons, he]
    show t.foldlM g (f b a) = _ ∧ _
    exact ih (fun b' a' ha' hb' => h b' a' (List.mem_cons_of_mem _ ha') hb')
      _ hp

/-- A checked iteration computes the total `Function.iterate` when the body
does and preserves the invariant. -/
theorem iterChk_eq (P : List Nat → Prop) (f : List Nat → List Nat)
    (g : List Nat → Option (List Nat))
    (h : ∀ s, P s → g s = some (f s) ∧ P (f s)) :
    ∀ n s, P s → iterChk g n s = some (f^[n] s) ∧ P (f^[n] s) := by
  intro n
  induction n with
  | zero => intro s hs; exact ⟨rfl, hs⟩
  | succ n ih =>
    intro s hs
    obtain ⟨he, hp⟩ := h s hs
    rw [show iterChk g (n + 1) s = Option.bind (g s) (iterChk g n) from rfl,
      he, Option.some_bind, Function.iterate_succ_apply]
    exact ih _ hp

/-- Checked SeedExpander pass-1 step succeeds and agrees with the total
step (every access in [0,256) on the table, cyclically reduced on the
input). -/
theorem sboxPass1StepChk_eq (bytes : List Nat) (p : List Nat × Nat) (i : Nat)
    (hL : 1 ≤ bytes.length) (hi : i < 256) (hsl : p.1.length = 256) :
    sboxPass1StepChk bytes p i = some (sboxPass1Step bytes p i) := by
  simp (disch := first
      | (exact Nat.mod_lt _ (by omega))
      | (simp only [List.length_set, hsl]; omega)) only
    [sboxPass1StepChk, sboxPass1Step, getB?_pos, setB?_pos, swapB?_pos,
      Option.some_bind, listSwap]

/-- Checked SeedExpander pass-2 step succeeds and agrees with the total
step. -/
theorem sboxPass2StepChk_eq (bytes : List Nat) (p : List Nat × Nat) (i : Nat)
    (hL : 1 ≤ bytes.length) (hi : i < 256) (hsl : p.1.length = 256) :
    sboxPass2StepChk bytes p i = some (sboxPass2Step bytes p i) := by
  simp (disch := first
      | (exact Nat.mod_lt _ (by omega))
      | (simp only [List.length_set, hsl]; omega)) only
    [sboxPass2StepChk, sboxPass2Step, getB?_pos, setB?_pos, swapB?_pos,
      Option.some_bind, listSwap]

/-- Checked `init_sbox` succeeds and computes `initSbox`. -/
theorem initSboxChk_eq (bytes : List Nat) (hL : 1 ≤ bytes.length)
    (hb : ∀ x ∈ bytes, x < 256) :
    initSboxChk bytes = some (initSbox bytes) := by
  simp only [initSboxChk, initSbox]
  rw [getB?_pos (by omega), Option.some_bind, getB?_pos (by omega),
    Option.some_bind]
  have h1 := foldlM_eq_foldl
    (fun p : List Nat × Nat => p.1.length = 256 ∧ ∀ x ∈ p.1, x < 256)
    (sboxPass1Step bytes) (sboxPass1StepChk bytes) revIdx
    (fun b a ha hp =>
      ⟨sboxPass1StepChk_eq bytes b a hL (mem_revIdx_lt a ha).2 hp.1,
        sboxPass1Step_inv bytes hb b a hp⟩)
    (List.range 256,
      (bytes.getD 0 0 + bytes.getD (bytes.length - 1) 0) % 256)
    ⟨List.length_range 256, fun x hx => by
      have hx2 : x ∈ List.range 256 := hx
      exact List.mem_range.1 hx2⟩
  rw [h1.1, Option.some_bind]
  have h2 := foldlM_eq_foldl
    (fun p : List Nat × Nat => p.1.length = 256 ∧ ∀ x ∈ p.1, x < 256)
    (sboxPass2Step bytes) (sboxPass2StepChk bytes) revIdx
    (fun b a ha hp =>
      ⟨sboxPass2StepChk_eq bytes b a hL (mem_revIdx_lt a ha).2 hp.1,
        sboxPass2Step_inv bytes hb b a hp⟩)
    _ h1.2
  rw [h2.1, Option.some_bind]

/-- Checked round pass-1 iteration succeeds, agrees with the total step,
and keeps the state at 64 byte-sized entries. -/
theorem roundPass1StepChk_eq (block sbox : List Nat) (len : Nat)
    (s : List Nat) (i : Nat) (hL : 1 ≤ len) (hlen64 : len ≤ 64)
    (hbl : block.length = 64) (hbv : ∀ x ∈ block, x < 256)
    (hsl : sbox.length = 256) (hsv : ∀ x ∈ sbox, x < 256)
    (hstl : s.length = 64) (hstv : ∀ x ∈ s, x < 256) (hi : i < 64) :
    roundPass1StepChk block sbox len s i =
      some (roundPass1Step block sbox len s i) ∧
    (roundPass1Step block sbox len s i).length = 64 ∧
    ∀ x ∈ roundPass1Step block sbox len s i, x < 256 := by
  have ha : roundP1aChk block len s i = some (roundPass1A block len s i) := by
    simp (disch := first
        | (exact Nat.mod_lt _ (by omega))
        | (simp only [List.length_set, hbl, hstl]; first
            | omega
            | exact Nat.lt_of_lt_of_le (Nat.mod_lt _ (by omega))
                (by omega))) only
      [roundP1aChk, roundPass1A, pass1AfterStep1, pass1MulAdd, getB?_pos,
        setB?_pos, Option.some_bind]
  have hal : (roundPass1A block len s i).length = 64 := by
    simp [roundPass1A, pass1AfterStep1, List.length_set, hstl]
  have hav : ∀ x ∈ roundPass1A block len s i, x < 256 := by
    simp only [roundPass1A, pass1AfterStep1, pass1MulAdd]
    repeat first
      | assumption
      | apply mod256_lt
      | apply xor_lt256
      | apply rotl_lt256
      | exact getD_lt256 _ _ hstv
      | exact getD_lt256 _ _ hbv
      | apply getD_set_lt256
      | apply mem_set_lt256
  have hb : roundP1bChk block sbox len (roundPass1A block len s i) i =
      some (roundPass1B block sbox len (roundPass1A block len s i) i) := by
    simp (disch := first
        | (exact Nat.mod_lt _ (by omega))
        | (simp only [List.length_set, hbl, hsl, hal]; first
            | omega
            | exact Nat.lt_of_lt_of_le (Nat.mod_lt _ (by omega))
                (by omega))) only
      [roundP1bChk, roundPass1B, getB?_pos, setB?_pos, Option.some_bind]
  have hbl2 : (roundPass1B block sbox len (roundPass1A block len s i)
      i).length = 64 := by
    simp [roundPass1B, List.length_set, hal]
  have hbv2 : ∀ x ∈ roundPass1B block sbox len (roundPass1A block len s i) i,
      x < 256 := by
    simp only [roundPass1B]
    repeat first
      | assumption
      | apply mod256_lt
      | apply xor_lt256
      | apply rotl_lt256
      | exact getD_lt256 _ _ hav
      | exact getD_lt256 _ _ hbv
      | exact getD_lt256 _ _ hsv
      | apply getD_set_lt256
      | apply mem_set_lt256
  have hc : roundP1cChk sbox
        (roundPass1B block sbox len (roundPass1A block len s i) i) i =
      some (roundPass1C sbox
        (roundPass1B block sbox len (roundPass1A block len s i) i) i) := by
    simp (disch := first
        | (simp only [List.length_set, hbl2]; omega)
        | (simp only [List.length_set, hsl]
           repeat first
             | assumption
             | apply mod256_lt
             | apply xor_lt256
             | apply rotl_lt256
             | exact getD_lt256 _ _ hbv2
             | exact getD_lt256 _ _ hsv
             | apply getD_set_lt256
             | apply mem_set_lt256)) only
      [roundP1cChk, roundPass1C, getB?_pos, setB?_pos, Option.some_bind]
  refine ⟨?_, ?_, ?_⟩
  · simp only [roundPass1StepChk, roundPass1Step]
    rw [ha, Option.some_bind, hb, Option.some_bind, hc]
  · simp [roundPass1Step, roundPass1C, List.length_set, hbl2]
  · simp only [roundPass1Step, roundPass1C]
    repeat first
      | assumption
      | apply mod256_lt
      | apply xor_lt256
      | apply rotl_lt256
      | exact getD_lt256 _ _ hbv2
      | exact getD_lt256 _ _ hsv
      | apply getD_set_lt256
      | apply mem_set_lt256

/-- Checked round pass-2 iteration succeeds, agrees with the total step,
and keeps the state at 64 byte-sized entries. -/
theorem roundPass2StepChk_eq (s : List Nat) (i : Nat)
    (hstl : s.length = 64) (hstv : ∀ x ∈ s, x < 256) (hi : i < 64) :
    roundPass2StepChk s i = some (roundPass2Step s i) ∧
    (roundPass2Step s i).length = 64 ∧
    ∀ x ∈ roundPass2Step s i, x < 256 := by
  refine ⟨?_, by simp [roundPass2Step, List.length_set, hstl], ?_⟩
  · simp (disch := first
        | (exact Nat.mod_lt _ (by omega))
        | (simp only [hstl]; omega)) only
      [roundPass2StepChk, roundPass2Step, getB?_pos, setB?_pos,
        Option.some_bind]
  · simp only [roundPass2Step]
    repeat first
      | assumption
      | apply xor_lt256
      | exact getD_lt256 _ _ hstv
      | apply mem_set_lt256

/-- Checked salt initialisation succeeds and agrees with `saltInit`. -/
theorem saltInitChk_eq (bytes sbox : List Nat) (hL : 1 ≤ bytes.length)
    (hsl : sbox.length = 256) :
    saltInitChk bytes sbox = some (saltInit bytes sbox) := by
  simp (disch := first
      | omega
      | (simp only [hsl]; omega)) only
    [saltInitChk, saltInit, getB?_pos, setB?_pos, Option.some_bind]

/-- Checked round pass-3 iteration succeeds, agrees with the total step,
and keeps the (state, salt) pair byte-sized. -/
theorem roundPass3StepChk_eq (bytes : List Nat) (p : List Nat × Nat)
    (i : Nat) (hL : 1 ≤ bytes.length) (hstl : p.1.length = 64)
    (hstv : ∀ x ∈ p.1, x < 256) (hsalt : p.2 < 256) (hi : i < 64) :
    roundPass3StepChk bytes p i = some (roundPass3Step bytes p i) ∧
    ((roundPass3Step bytes p i).1.length = 64 ∧
      ∀ x ∈ (roundPass3Step bytes p i).1, x < 256) ∧
    (roundPass3Step bytes p i).2 < 256 := by
  refine ⟨?_, ⟨by simp [roundPass3Step, List.length_set, hstl], ?_⟩, ?_⟩
  · simp (disch := first
        | (exact Nat.mod_lt _ (by omega))
        | (simp only [hstl]; omega)) only
      [roundPass3StepChk, roundPass3Step, getB?_pos, setB?_pos,
        Option.some_bind]
  · simp only [roundPass3Step]
    repeat first
      | assumption
      | apply mod256_lt
      | apply xor_lt256
      | apply rotl_lt256
      | exact getD_lt256 _ _ hstv
      | apply getD_set_lt256
      | apply mem_set_lt256
  · simp only [roundPass3Step]
    exact xor_lt256 hsalt (mod256_lt _)

/-- Checked round pass-4 iteration succeeds, agrees with the total step,
and keeps the state at 64 byte-sized entries. -/
theorem roundPass4StepChk_eq (block : List Nat) (len : Nat) (s : List Nat)
    (i : Nat) (hL : 1 ≤ len) (hlen64 : len ≤ 64)
    (hbl : block.length = 64) (hbv : ∀ x ∈ block, x < 256)
    (hstl : s.length = 64) (hstv : ∀ x ∈ s, x < 256) (hi : i < 64) :
    roundPass4StepChk block len s i = some (roundPass4Step block len s i) ∧
    (roundPass4Step block len s i).length = 64 ∧
    ∀ x ∈ roundPass4Step block len s i, x < 256 := by
  have ha : roundP4aChk s i = some (roundPass4A s i) := by
    simp (disch := first
        | (exact Nat.mod_lt _ (by omega))
        | (simp only [List.length_set, hstl]; omega)) only
      [roundP4aChk, roundPass4A, getB?_pos, setB?_pos, Option.some_bind]
  have hal : (roundPass4A s i).length = 64 := by
    simp [roundPass4A, List.length_set, hstl]
  have hav : ∀ x ∈ roundPass4A s i, x < 256 := by
    simp only [roundPass4A]
    repeat first
      | assumption
      | apply mod256_lt
      | apply xor_lt256
      | apply rotl_lt256
      | exact getD_lt256 _ _ hstv
      | apply getD_set_lt256
      | apply mem_set_lt256
  have hb : roundP4bChk block len (roundPass4A s i) i =
      some (roundPass4B block len (roundPass4A s i) i) := by
    simp (disch := first
        | (exact Nat.mod_lt _ (by omega))
        | (simp only [List.length_set, hbl, hal]; first
            | omega
            | exact Nat.lt_of_lt_of_le (Nat.mod_lt _ (by omega))
                (by omega))) only
      [roundP4bChk, roundPass4B, getB?_pos, setB?_pos, Option.some_bind]
  refine ⟨?_, ?_, ?_⟩
  · simp only [roundPass4StepChk, roundPass4Step]
    rw [ha, Option.some_bind, hb]
  · simp [roundPass4Step, roundPass4B, List.length_set, hal]
  · simp only [roundPass4Step, roundPass4B]
    repeat first
      | assumption
      | apply mod256_lt
      | apply xor_lt256
      | apply rotl_lt256
      | exact getD_lt256 _ _ hav
      | exact getD_lt256 _ _ hbv
      | apply getD_set_lt256
      | apply mem_set_lt256

/-- Checked Finalizer iteration succeeds, agrees with the total step, and
keeps the state at 64 byte-sized entries. -/
theorem endMixStepChk_eq (block sbox : List Nat) (s : List Nat) (i : Nat)
    (hbl : block.length = 64) (hbv : ∀ x ∈ block, x < 256)
    (hsl : sbox.length = 256) (hsv : ∀ x ∈ sbox, x < 256)
    (hstl : s.length = 64) (hstv : ∀ x ∈ s, x < 256) (hi : i < 64) :
    endMixStepChk block sbox s i = some (endMixStep block sbox s i) ∧
    (endMixStep block sbox s i).length = 64 ∧
    ∀ x ∈ endMixStep block sbox s i, x < 256 := by
  refine ⟨?_, by simp [endMixStep, List.length_set, hstl], ?_⟩
  · simp (disch := first
        | (simp only [List.length_set, hstl, hbl]; omega)
        | (simp only [List.length_set, hsl]
           repeat first
             | assumption
             | apply mod256_lt
             | apply xor_lt256
             | apply rotl_lt256
             | exact getD_lt256 _ _ hstv
             | exact getD_lt256 _ _ hbv
             | exact getD_lt256 _ _ hsv
             | apply getD_set_lt256
             | apply mem_set_lt256)) only
      [endMixStepChk, endMixStep, getB?_pos, setB?_pos, Option.some_bind]
  · simp only [endMixStep]
    repeat first
      | assumption
      | apply mod256_lt
      | apply xor_lt256
      | apply rotl_lt256
      | exact getD_lt256 _ _ hstv
      | exact getD_lt256 _ _ hbv
      | exact getD_lt256 _ _ hsv
      | apply getD_set_lt256
      | apply mem_set_lt256

/-- Checked `round` succeeds, agrees with `round`, and keeps the state at
64 byte-sized entries. -/
theorem roundChk_eq (bytes block sbox : List Nat) (s : List Nat)
    (hbL : 1 ≤ bytes.length) (hbl : block.length = 64)
    (hbv : ∀ x ∈ block, x < 256) (hsl : sbox.length = 256)
    (hsv : ∀ x ∈ sbox, x < 256) (hstl : s.length = 64)
    (hstv : ∀ x ∈ s, x < 256) :
    roundChk bytes block sbox s = some (round bytes block sbox s) ∧
    (round bytes block sbox s).length = 64 ∧
    ∀ x ∈ round bytes block sbox s, x < 256 := by
  have hL : 1 ≤ min bytes.length 64 := by omega
  have hlen64 : min bytes.length 64 ≤ 64 := Nat.min_le_right _ _
  simp only [roundChk, round]
  obtain ⟨he1, hp1⟩ := foldlM_eq_foldl
    (fun t : List Nat => t.length = 64 ∧ ∀ x ∈ t, x < 256)
    (roundPass1Step block sbox (min bytes.length 64))
    (roundPass1StepChk block sbox (min bytes.length 64)) idxs64
    (fun b a ha hp => by
      obtain ⟨hq, hr, hs2⟩ := roundPass1StepChk_eq block sbox
        (min bytes.length 64) b a hL hlen64 hbl hbv hsl hsv hp.1 hp.2
        (mem_idxs64_lt ha)
      exact ⟨hq, hr, hs2⟩)
    s ⟨hstl, hstv⟩
  rw [he1, Option.some_bind]
  generalize ht1 : idxs64.foldl
    (roundPass1Step block sbox (min bytes.length 64)) s = t1
  rw [ht1] at hp1
  obtain ⟨he2, hp2⟩ := foldlM_eq_foldl
    (fun t : List Nat => t.length = 64 ∧ ∀ x ∈ t, x < 256)
    roundPass2Step roundPass2StepChk idxs64
    (fun b a ha hp => by
      obtain ⟨hq, hr, hs2⟩ :=
        roundPass2StepChk_eq b a hp.1 hp.2 (mem_idxs64_lt ha)
      exact ⟨hq, hr, hs2⟩)
    t1 hp1
  rw [he2, Option.some_bind]
  generalize ht2 : idxs64.foldl roundPass2Step t1 = t2
  rw [ht2] at hp2
  rw [saltInitChk_eq bytes sbox hbL hsl, Option.some_bind]
  have hsalt0 : saltInit bytes sbox < 256 := rotl_lt256 _ _ (mod256_lt _)
  obtain ⟨he3, hp3⟩ := foldlM_eq_foldl
    (fun p : List Nat × Nat =>
      (p.1.length = 64 ∧ ∀ x ∈ p.1, x < 256) ∧ p.2 < 256)
    (roundPass3Step bytes) (roundPass3StepChk bytes) idxs64
    (fun b a ha hp => by
      obtain ⟨hq, hr, hs2⟩ := roundPass3StepChk_eq bytes b a hbL hp.1.1
        hp.1.2 hp.2 (mem_idxs64_lt ha)
      exact ⟨hq, hr, hs2⟩)
    (t2, saltInit bytes sbox) ⟨hp2, hsalt0⟩
  rw [he3, Option.some_bind]
  generalize ht3 : idxs64.foldl (roundPass3Step bytes)
    (t2, saltInit bytes sbox) = p3
  rw [ht3] at hp3
  obtain ⟨he4, hp4⟩ := foldlM_eq_foldl
    (fun t : List Nat => t.length = 64 ∧ ∀ x ∈ t, x < 256)
    (roundPass4Step block (min bytes.length 64))
    (roundPass4StepChk block (min bytes.length 64)) idxs64
    (fun b a ha hp => by
      obtain ⟨hq, hr, hs2⟩ := roundPass4StepChk_eq block
        (min bytes.length 64) b a hL hlen64 hbl hbv hp.1 hp.2
        (mem_idxs64_lt ha)
      exact ⟨hq, hr, hs2⟩)
    p3.1 hp3.1
  exact ⟨he4, hp4⟩

/-- Checked `end_mix` succeeds and agrees with `endMix`. -/
theorem endMixChk_eq (block sbox : List Nat) (s : List Nat)
    (hbl : block.length = 64) (hbv : ∀ x ∈ block, x < 256)
    (hsl : sbox.length = 256) (hsv : ∀ x ∈ sbox, x < 256)
    (hstl : s.length = 64) (hstv : ∀ x ∈ s, x < 256) :
    endMixChk block sbox s = some (endMix block sbox s) := by
  simp only [endMixChk, endMix]
  exact (foldlM_eq_foldl
    (fun t : List Nat => t.length = 64 ∧ ∀ x ∈ t, x < 256)
    (endMixStep block sbox) (endMixStepChk block sbox) idxs64
    (fun b a ha hp => by
      obtain ⟨hq, hr, hs2⟩ := endMixStepChk_eq block sbox b a hbl hbv hsl
        hsv hp.1 hp.2 (mem_idxs64_lt ha)
      exact ⟨hq, hr, hs2⟩)
    s ⟨hstl, hstv⟩).1

/-- The cons form of the initial state. -/
theorem initState_cons (L : Nat) : initState L =
    (0 ^^^ L % 256) :: (0 ^^^ (L >>> 8) % 256) :: List.replicate 62 0 := rfl

theorem initState_length (L : Nat) : (initState L).length = 64 := by
  rw [initState_cons]
  simp

theorem initState_values (L : Nat) : ∀ x ∈ initState L, x < 256 := by
  intro x hx
  rw [initState_cons, List.mem_cons, List.mem_cons] at hx
  rcases hx with h | h | hx
  · simp only [h, Nat.zero_xor]
    exact mod256_lt _
  · simp only [h, Nat.zero_xor]
    exact mod256_lt _
  · rw [List.eq_of_mem_replicate hx]
    norm_num

/-- Checked initial-state construction succeeds and agrees. -/
theorem initStateChk_eq (L : Nat) : initStateChk L = some (initState L) := by
  simp (disch := first
      | (simp only [List.length_set, List.length_replicate]; omega)
      | omega) only
    [initStateChk, initState, getB?_pos, setB?_pos, Option.some_bind,
      getD_replicate_of_lt, getD_set_ne]

/-- Checked block construction succeeds and agrees. -/
theorem mkBlockChk_eq (bytes : List Nat) :
    mkBlockChk bytes = some (mkBlock bytes) := by
  simp only [mkBlockChk, mkBlock, initStateChk_eq, Option.some_bind]
  rw [getB?_pos (by rw [initState_length]; omega), Option.some_bind]
  rw [if_pos ⟨Nat.min_le_left _ _, Nat.min_le_right _ _⟩]

theorem mkBlock_length (bytes : List Nat) : (mkBlock bytes).length = 64 := by
  have h1 : min bytes.length 64 ≤ bytes.length := Nat.min_le_left _ _
  have h2 : min bytes.length 64 ≤ 64 := Nat.min_le_right _ _
  simp only [mkBlock, List.length_append, List.length_take,
    List.length_replicate]
  omega

theorem mkBlock_values (bytes : List Nat) (hbv : ∀ x ∈ bytes, x < 256) :
    ∀ x ∈ mkBlock bytes, x < 256 := by
  intro x hx
  simp only [mkBlock, List.mem_append] at hx
  rcases hx with h | h
  · exact hbv x (List.take_subset _ _ h)
  · rw [List.eq_of_mem_replicate h, initState_getD_zero]
    exact mod256_lt _

/-- Checked round count succeeds and agrees. -/
theorem numRoundsChk_eq (bytes : List Nat) (hL : 1 ≤ bytes.length) :
    numRoundsChk bytes = some (numRounds bytes) := by
  simp (disch := omega) only
    [numRoundsChk, numRounds, getB?_pos, Option.some_bind]

theorem normalize_length (input : List Nat) :
    1 ≤ (normalize input).length := by
  unfold normalize
  split
  · norm_num
  · rename_i h
    cases input with
    | nil => exact absurd rfl h
    | cons a t => simp

theorem normalize_values (input : List Nat) (h : ∀ x ∈ input, x < 256) :
    ∀ x ∈ normalize input, x < 256 := by
  unfold normalize
  split
  · intro x hx
    rw [List.mem_singleton.1 hx]
    norm_num
  · exact h

/-- Fold characterization of round pass 3: after the first `n` iterations
the salt equals `saltSeq n`, positions below `n` have received their
injection, and positions from `n` on are untouched. -/
theorem pass3_fold_characterization (bytes sbox s : List Nat)
    (hlen : s.length = 64) (n : Nat) (hn : n ≤ 64) :
    ((List.range n).foldl (roundPass3Step bytes)
        (s, saltInit bytes sbox)).2 = saltSeq bytes sbox n ∧
    (((List.range n).foldl (roundPass3Step bytes)
        (s, saltInit bytes sbox)).1).length = 64 ∧
    ∀ i,
      (i < n →
        (((List.range n).foldl (roundPass3Step bytes)
            (s, saltInit bytes sbox)).1).getD i 0 =
          s.getD i 0 ^^^ rotl (saltSeq bytes sbox (i + 1)) (i % 8)) ∧
      (n ≤ i →
        (((List.range n).foldl (roundPass3Step bytes)
            (s, saltInit bytes sbox)).1).getD i 0 = s.getD i 0) := by
  induction n with
  | zero =>
    exact ⟨rfl, hlen, fun i =>
      ⟨fun h => absurd h (by omega), fun _ => rfl⟩⟩
  | succ n ih =>
    obtain ⟨ihsalt, ihlen, ihpt⟩ := ih (by omega)
    rw [List.range_succ, List.foldl_append, List.foldl_cons, List.foldl_nil]
    simp only [roundPass3Step]
    rw [ihsalt]
    refine ⟨rfl, by simp [ihlen], ?_⟩
    intro i
    constructor
    · intro hi
      by_cases hin : i = n
      · subst hin
        rw [getD_set_eq _ _ _ (by omega)]
        rw [(ihpt i).2 (Nat.le_refl i)]
        rfl
      · rw [getD_set_ne _ _ _ _ hin]
        exact (ihpt i).1 (by omega)
    · intro hi
      rw [getD_set_ne _ _ _ _ (by omega)]
      exact (ihpt i).2 (by omega)

/-! ### Claim theorems -/

/-- C9: the digest of the empty input equals the digest of the single zero
byte — normalisation maps both inputs to `[0]` before any other step, and
the pipeline afterwards is one and the same function application. -/
theorem digest_empty_eq_digest_zero : digest [] = digest [0] :=
  congrArg pipelineRun rfl

/-- C7: for every byte input (so after normalisation the input is non-empty
with byte-sized entries), every array access performed by the embedded
pipeline — init_sbox, the rounds, and end_mix — is in bounds: the checked
pipeline, which performs exactly the source's reads and writes in source
order and returns `none` at the first out-of-bounds access, returns `some`
of the total digest. -/
theorem pipeline_no_oob (input : List Nat) (hv : ∀ x ∈ input, x < 256) :
    digestChk input = some (digest input) := by
  have hbL := normalize_length input
  have hbv := normalize_values input hv
  simp only [digestChk, digest, pipelineRun]
  rw [initStateChk_eq, Option.some_bind, mkBlockChk_eq, Option.some_bind,
    initSboxChk_eq _ hbL hbv, Option.some_bind, numRoundsChk_eq _ hbL,
    Option.some_bind]
  obtain ⟨hsl, hsv⟩ := initSbox_table_inv (normalize input) hbv
  have hbkl := mkBlock_length (normalize input)
  have hbkv := mkBlock_values (normalize input) hbv
  obtain ⟨hit, hitp⟩ := iterChk_eq
    (fun t => t.length = 64 ∧ ∀ x ∈ t, x < 256)
    (round (normalize input) (mkBlock (normalize input))
      (initSbox (normalize input)))
    (roundChk (normalize input) (mkBlock (normalize input))
      (initSbox (normalize input)))
    (fun s hs => by
      obtain ⟨hq, hr, hs2⟩ := roundChk_eq (normalize input) _ _ s hbL hbkl
        hbkv hsl hsv hs.1 hs.2
      exact ⟨hq, hr, hs2⟩)
    (numRounds (normalize input)) (initState (normalize input).length)
    ⟨initState_length _, initState_values _⟩
  rw [hit, Option.some_bind]
  exact endMixChk_eq _ _ _ hbkl hbkv hsl hsv hitp.1 hitp.2

theorem pipeline_no_oob_witness : digestChk [] = some (digest []) :=
  pipeline_no_oob [] (by simp)

/-- C2 counterexample: for the input [200, 100] the program computes `(200 +
100) mod 256 = 44` rounds past 10000 (the `u8` sum wraps before the
`% 255`), not `(200 + 100) mod 255 = 45` as the claim's plain integer sum
would give. -/
theorem numRounds_plain_sum_cex :
    ¬ numRounds [200, 100] = 10000 + (200 + 100) % 255 % 1000 := by decide

/-- C2 amended: the round count is `10000 + (((f + l) mod 256) mod 255) mod
1000` — the byte sum wraps modulo 256 first — and always lies in the claimed
interval [10000, 10999]. -/
theorem numRounds_wrapping_formula (bytes : List Nat) (h : bytes ≠ []) :
    numRounds bytes =
      10000 +
        (bytes.getD 0 0 + bytes.getD (bytes.length - 1) 0) % 256 % 255 % 1000 ∧
    10000 ≤ numRounds bytes ∧ numRounds bytes ≤ 10999 := by
  refine ⟨rfl, Nat.le_add_right _ _, ?_⟩
  unfold numRounds
  omega

theorem numRounds_wrapping_formula_witness :
    numRounds [200, 100] = 10000 + (200 + 100) % 256 % 255 % 1000 ∧
    10000 ≤ numRounds [200, 100] ∧ numRounds [200, 100] ≤ 10999 :=
  numRounds_wrapping_formula [200, 100] (by decide)

/-- C8: the initial accumulator sees the input length only through its low
16 bits: lengths congruent modulo 65536 produce identical initial states. -/
theorem initState_depends_on_low16 (L M : Nat) (h : L % 65536 = M % 65536) :
    initState L = initState M := by
  have hdvd : (256 : Nat) ∣ 65536 := by norm_num
  have h1 : L % 256 = M % 256 := by
    calc L % 256 = L % 65536 % 256 := (Nat.mod_mod_of_dvd L hdvd).symm
    _ = M % 65536 % 256 := by rw [h]
    _ = M % 256 := Nat.mod_mod_of_dvd M hdvd
  have e : ∀ N : Nat, N >>> 8 % 256 = N % 65536 / 256 := by
    intro N
    rw [Nat.shiftRight_eq_div_pow]
    norm_num [Nat.div_mod_eq_mod_mul_div]
  have h2 : L >>> 8 % 256 = M >>> 8 % 256 := by
    rw [e, e, h]
  unfold initState
  rw [h1, h2]

theorem initState_depends_on_low16_witness : initState 65537 = initState 1 :=
  initState_depends_on_low16 65537 1 (by norm_num)

/-- C10: for a normalised input shorter than 64 bytes, every block position
from the input length up to 63 holds the fill byte, which is the
accumulator's byte 0 after length-mixing, i.e. the low byte of the input
length. -/
theorem mkBlock_tail_fill (bytes : List Nat) (i : Nat) (h0 : bytes ≠ [])
    (h1 : bytes.length < 64) (h2 : bytes.length ≤ i) (h3 : i < 64) :
    (mkBlock bytes).getD i 0 = bytes.length % 256 := by
  have hmin : min bytes.length 64 = bytes.length :=
    Nat.min_eq_left (Nat.le_of_lt h1)
  simp only [mkBlock]
  rw [hmin, List.take_length]
  rw [List.getD_append_right _ _ _ _ (by simpa using h2)]
  rw [getD_replicate_of_lt _ _ _ (by omega)]
  exact initState_getD_zero _

theorem mkBlock_tail_fill_witness :
    (mkBlock [5]).getD 10 0 = [5].length % 256 :=
  mkBlock_tail_fill [5] 10 (by decide) (by decide) (by decide) (by decide)

/-- C1 counterexample: at index 0 of pass 1 in the first round on input
[97, 98] (the state right after pass-1 step 1), the program's step 2 adds
`state[(0+1) % 8] = state[1]` and yields 60, while the claim's
`state[0 % 8] = state[0]` would yield 62. -/
theorem pass1MulAdd_operand_cex :
    ¬ pass1MulAdd (pass1AfterStep1 (initState 2) 0) 0 =
      pass1MulAddClaimC1 (pass1AfterStep1 (initState 2) 0) 0 := by decide

/-- C1 amended: pass-1 step 2 computes `state[i] * 0x9E + state[(i+1) mod
8]` (wrapping), so the added operand sits at index `(i+1) mod 8`, and the
step reads nothing of the accumulator beyond index `i` and the first 8
bytes: states agreeing there produce the same value. -/
theorem pass1MulAdd_first_eight (s t : List Nat) (i : Nat)
    (hagree : ∀ k, k < 8 → s.getD k 0 = t.getD k 0)
    (hi : s.getD i 0 = t.getD i 0) :
    pass1MulAdd s i = (s.getD i 0 * 0x9E + s.getD ((i + 1) % 8) 0) % 256 ∧
    pass1MulAdd s i = pass1MulAdd t i := by
  refine ⟨rfl, ?_⟩
  unfold pass1MulAdd
  rw [hi, hagree _ (Nat.mod_lt _ (by norm_num))]

theorem pass1MulAdd_first_eight_witness :
    pass1MulAdd [1, 2, 3, 4, 5, 6, 7, 8] 0 =
      (([1, 2, 3, 4, 5, 6, 7, 8] : List Nat).getD 0 0 * 0x9E +
        ([1, 2, 3, 4, 5, 6, 7, 8] : List Nat).getD ((0 + 1) % 8) 0) % 256 ∧
    pass1MulAdd [1, 2, 3, 4, 5, 6, 7, 8] 0 =
      pass1MulAdd [1, 2, 3, 4, 5, 6, 7, 8, 50] 0 :=
  pass1MulAdd_first_eight [1, 2, 3, 4, 5, 6, 7, 8] [1, 2, 3, 4, 5, 6, 7, 8, 50]
    0 (by decide) (by decide)

/-- C3 amended: the SeedExpander output is always a table of 256 bytes
(values in 0..255), but it is not a bijection for every input — the XORs
applied before each swap break the permutation property (see the
counterexample at input [0x61]). -/
theorem initSbox_byte_table (bytes : List Nat) (h0 : bytes ≠ [])
    (hb : ∀ x ∈ bytes, x < 256) :
    (initSbox bytes).length = 256 ∧ ∀ x ∈ initSbox bytes, x < 256 :=
  initSbox_table_inv bytes hb

theorem initSbox_byte_table_witness :
    (initSbox [97]).length = 256 ∧ ∀ x ∈ initSbox [97], x < 256 :=
  initSbox_byte_table [97] (by decide) (by decide)

set_option maxRecDepth 100000 in
set_option maxHeartbeats 8000000 in
/-- C3 counterexample: for the single-byte input [0x61] the table is not a
bijection — entries 6 and 24 both hold 15, so the 256 values are not
pairwise distinct. -/
theorem initSbox_bijection_cex : ¬ (initSbox [97]).Nodup := by
  intro hnd
  have hlen : (initSbox [97]).length = 256 :=
    (initSbox_table_inv [97] (by decide)).1
  have h6 : (initSbox [97]).getD 6 0 = 15 := by
    rw [initSbox_eq_mirror [97] 6 (by norm_num)]
    decide
  have h24 : (initSbox [97]).getD 24 0 = 15 := by
    rw [initSbox_eq_mirror [97] 24 (by norm_num)]
    decide
  rw [List.getD_eq_getElem _ _ (by omega)] at h6
  rw [List.getD_eq_getElem _ _ (by omega)] at h24
  exact absurd (hnd.getElem_inj_iff.mp (h6.trans h24.symm)) (by norm_num)

/-- C5: each pass-1 iteration of SeedExpander updates the seed by the
claimed formula, computes `j = (seed XOR i) mod 256` from the updated seed,
XORs `table[i]` with `input[i mod len]` and `table[j]` with `input[(i+1)
mod len]` strictly before swapping the two entries; and the pass indeed
walks `i` descending from 255 to 1. -/
theorem sboxPass1Step_matches_spec (bytes sbox : List Nat) (seed i : Nat)
    (h1 : 1 ≤ i) (h2 : i < 256) (hlen : sbox.length = 256) :
    Pass1IterationShape bytes sbox seed i ∧
    revIdx.length = 255 ∧ ∀ k, k < 255 → revIdx.getD k 0 = 255 - k := by
  refine ⟨?_, by simp [revIdx], ?_⟩
  · unfold Pass1IterationShape
    refine ⟨rfl, ?_, ?_⟩
    · simp only [sboxPass1Step]
      simp [listSwap_length, hlen]
    · intro j hj
      have hjlt : j < 256 := by
        rw [hj]
        exact Nat.mod_lt _ (by norm_num)
      simp only [sboxPass1Step] at hj ⊢
      rw [← hj]
      refine ⟨?_, ?_, ?_⟩
      · intro hne
        constructor
        · rw [listSwap_getD_fst _ _ _ (by simp [hlen]; omega),
            getD_set_eq _ _ _ (by simp [hlen]; omega),
            getD_set_ne _ _ _ _ (Ne.symm hne)]
        · rw [listSwap_getD_snd _ _ _ (by simp [hlen]; omega),
            getD_set_ne _ _ _ _ hne,
            getD_set_eq _ _ _ (by simp [hlen]; omega)]
      · intro heq
        subst heq
        rw [listSwap_getD_snd _ _ _ (by simp [hlen]; omega),
          getD_set_eq _ _ _ (by simp [hlen]; omega),
          getD_set_eq _ _ _ (by simp [hlen]; omega)]
      · intro k hki hkj
        rw [listSwap_getD_other _ _ _ _ hki hkj,
          getD_set_ne _ _ _ _ hkj, getD_set_ne _ _ _ _ hki]
  · intro k hk
    unfold revIdx
    rw [List.getD_eq_getElem _ _ (by simp; omega), List.getElem_reverse,
      List.getElem_range'_1]
    simp
    omega

theorem sboxPass1Step_matches_spec_witness :
    Pass1IterationShape [97] (List.range 256) 0 255 ∧
    revIdx.length = 255 ∧ ∀ k, k < 255 → revIdx.getD k 0 = 255 - k :=
  sboxPass1Step_matches_spec [97] (List.range 256) 0 255 (by norm_num)
    (by norm_num) (List.length_range 256)

/-- C6: round pass 3 derives its initial salt by the claimed formula,
updates the salt before each injection, carries it across all 64
iterations, and XORs `rotl salt (i mod 8)` into `accumulator[i]`. -/
theorem roundPass3_matches_spec (bytes sbox s : List Nat)
    (hlen : s.length = 64) : Pass3Shape bytes sbox s := by
  obtain ⟨hsalt, hl, hpt⟩ :=
    pass3_fold_characterization bytes sbox s hlen 64 (Nat.le_refl 64)
  exact ⟨rfl, hsalt, fun i hi => (hpt i).1 hi⟩

theorem roundPass3_matches_spec_witness :
    Pass3Shape [97] (List.range 256) (initState 1) :=
  roundPass3_matches_spec [97] (List.range 256) (initState 1) (by decide)

/-- C4: the Finalizer is exactly the spec's three ascending steps — XOR the
block byte in, rotate left by the table lookup reduced modulo 8, then the
wrapping `(acc + block) * 3` followed by the final XOR with the block
byte. -/
theorem endMix_matches_spec (block sbox s : List Nat) :
    endMix block sbox s = endMixSpec block sbox s := by
  unfold endMix endMixSpec
  suffices h : endMixStep block sbox = endMixStepSpec block sbox by rw [h]
  funext t i
  simp only [endMixStep, endMixStepSpec, rotl_mod8]

end ZincLHA
